import Mathlib

/-!
# OrderFlow aggregation engine — shallow embedding

A shallow embedding in Lean 4 of the order-flow analytics core of the
`orderflow` repository (`backend/src/engine/aggregation.js`,
`backend/src/engine/AggregationEngine.js`, `backend/src/storage/storage.js`,
and the ring buffer utility).  JavaScript numbers are modelled as rationals
(`ℚ`), timestamps as naturals (milliseconds), JS `Map`s as insertion-ordered
association lists, and `undefined`/`null` as `Option`.  All definitions are
executable; theorems at the end settle the frozen claims.
-/

namespace OrderFlow

/-- Aggressor side of a trade: `'buy' | 'sell' | 'unknown'` in the source. -/
inductive Side where
  | buy
  | sell
  | unknown
deriving DecidableEq, Repr

/-- A book side tag, the `'bid' | 'ask'` strings of the source. -/
inductive BookSide where
  | bid
  | ask
deriving DecidableEq, Repr

/-- A normalized trade tick `{ts, price, size, side}` (§3 of the design). -/
structure Tick where
  ts : ℕ
  price : ℚ
  size : ℚ
  side : Side
deriving DecidableEq, Repr

/-!
## Side inference (`aggregation.js`, `inferSide`)

```js
function inferSide(price, prevPrice, bidPrice, askPrice) {
  if (bidPrice !== undefined && askPrice !== undefined) {
    if (price >= askPrice) return 'buy';
    if (price <= bidPrice) return 'sell';
  }
  // Tick rule fallback
  if (prevPrice !== undefined) {
    if (price > prevPrice) return 'buy';
    if (price < prevPrice) return 'sell';
  }
  return 'unknown';
}
```
-/

/-- Tick-rule fallback of `inferSide`: the part after the book-context block. -/
def inferSideTickRule (price : ℚ) (prevPrice : Option ℚ) : Side :=
  match prevPrice with
  | some prev =>
      if price > prev then .buy
      else if price < prev then .sell
      else .unknown
  | none => .unknown

/-- `inferSide(price, prevPrice, bidPrice, askPrice)` from `aggregation.js`:
book rule when both sides are defined, else (or on fall-through) tick rule,
else `unknown`. -/
def inferSide (price : ℚ) (prevPrice bidPrice askPrice : Option ℚ) : Side :=
  match bidPrice, askPrice with
  | some bid, some ask =>
      if price ≥ ask then .buy
      else if price ≤ bid then .sell
      else inferSideTickRule price prevPrice
  | _, _ => inferSideTickRule price prevPrice

/-- Rule (a) of the spec cascade (§4.1): with both book sides known,
`price ≥ ask ⇒ buy`, `price ≤ bid ⇒ sell`, anything strictly inside the
spread is undecided (`none`). -/
def specBookRule (price bid ask : ℚ) : Option Side :=
  if price ≥ ask then some .buy
  else if price ≤ bid then some .sell
  else none

/-- Rule (b) of the spec cascade (§4.1): tick rule against the previous
trade price; an equal price falls through (`none`). -/
def specTickRule (price prev : ℚ) : Option Side :=
  if price > prev then some .buy
  else if price < prev then some .sell
  else none

/-- The aggressor-inference cascade as the spec words it (§4.1): rule (a)
when both book sides are known, falling through to rule (b) when a previous
trade price is known, and `unknown` when no rule decides. -/
def specInferSide (price : ℚ) (prevPrice bidPrice askPrice : Option ℚ) : Side :=
  (((bidPrice.bind fun bid => askPrice.bind fun ask =>
      specBookRule price bid ask)).orElse
    (fun _ => prevPrice.bind (specTickRule price))).getD .unknown

/-!
## Insertion-ordered association lists (JS `Map` semantics)

A JS `Map` keeps insertion order; `set` on an existing key updates in place,
`set` on a fresh key appends at the end.
-/

/-- `Map.get(p)` on a price-keyed map. -/
def alGet {β : Type} (m : List (ℚ × β)) (p : ℚ) : Option β :=
  (m.find? fun e => decide (e.1 = p)).map (·.2)

/-- `Map.set(p, v)`: replace in place when the key exists, append otherwise. -/
def alSet {β : Type} (m : List (ℚ × β)) (p : ℚ) (v : β) : List (ℚ × β) :=
  match m with
  | [] => [(p, v)]
  | e :: rest => if e.1 = p then (p, v) :: rest else e :: alSet rest p v

/-- The `if (!m.has(p)) m.set(p, dflt); f(m.get(p))` update idiom. -/
def alUpdate {β : Type} (m : List (ℚ × β)) (p : ℚ) (dflt : β) (f : β → β) :
    List (ℚ × β) :=
  alSet m p (f ((alGet m p).getD dflt))

/-!
## DOM builder (`aggregation.js`, class `DomBuilder`)
-/

/-- Change classification of a DOM level relative to the prior book. -/
inductive Change where
  | added
  | modified
  | unchanged
  | removed
deriving DecidableEq, Repr

/-- One ranked DOM level as produced by `DomBuilder.snapshot`:
`{ price, size, side, change, prevSize }` (`prevSize ?? null`). -/
structure DomLevel where
  price : ℚ
  size : ℚ
  side : BookSide
  change : Change
  prevSize : Option ℚ
deriving DecidableEq, Repr

/-- A pulled-liquidity entry `{ price, size, side, change: 'removed' }`
reported by `DomBuilder.snapshot` outside the ranked view. -/
structure PulledLevel where
  price : ℚ
  size : ℚ
  side : BookSide
  change : Change
deriving DecidableEq, Repr

/-- The object returned by `DomBuilder.snapshot`. -/
structure DomSnapshot where
  bids : List DomLevel
  asks : List DomLevel
  stackedBids : List DomLevel
  stackedAsks : List DomLevel
  pulledBids : List PulledLevel
  pulledAsks : List PulledLevel
  bestBid : Option ℚ
  bestAsk : Option ℚ
  spread : Option ℚ
deriving DecidableEq, Repr

/-- State of `DomBuilder`: current and previous price→size maps per side. -/
structure DomBuilder where
  maxLevels : ℕ
  bids : List (ℚ × ℚ)
  asks : List (ℚ × ℚ)
  prevBids : List (ℚ × ℚ)
  prevAsks : List (ℚ × ℚ)
deriving DecidableEq, Repr

/-- `new DomBuilder(levels)`. -/
def DomBuilder.init (levels : ℕ := 50) : DomBuilder :=
  ⟨levels, [], [], [], []⟩

/-- Rebuild one side of the book from an update: iterate the `[price, size]`
pairs, keeping only positive sizes (`if (size > 0) map.set(price, size)`). -/
def rebuildSide (entries : List (ℚ × ℚ)) : List (ℚ × ℚ) :=
  entries.foldl (fun m e => if e.2 > 0 then alSet m e.1 e.2 else m) []

/-- `DomBuilder.update(bids, asks)`: snapshot the current maps as previous,
then rebuild both sides from the input, dropping non-positive sizes. -/
def DomBuilder.update (d : DomBuilder) (bids asks : List (ℚ × ℚ)) : DomBuilder :=
  { d with
    prevBids := d.bids
    prevAsks := d.asks
    bids := rebuildSide bids
    asks := rebuildSide asks }

/-- Classification in `buildLevels`: previous size `undefined` ⇒ `added`;
strictly larger or strictly smaller ⇒ `modified`; otherwise `unchanged`. -/
def classify (size : ℚ) (prevSize : Option ℚ) : Change :=
  match prevSize with
  | none => .added
  | some ps => if size > ps then .modified else if size < ps then .modified else .unchanged

/-- `buildLevels(cur, prev, side)`: sort the current side (bids descending,
asks ascending), keep the top `maxLevels`, and annotate each entry against
the previous map. -/
def buildLevels (maxLevels : ℕ) (cur prev : List (ℚ × ℚ)) (side : BookSide) :
    List DomLevel :=
  let sorted := cur.mergeSort fun a b =>
    match side with
    | .bid => decide (b.1 ≤ a.1)
    | .ask => decide (a.1 ≤ b.1)
  (sorted.take maxLevels).map fun e =>
    let prevSize := alGet prev e.1
    ⟨e.1, e.2, side, classify e.2 prevSize, prevSize⟩

/-- `_calcLargeThreshold()`: 3 × mean size across both sides, 100 when the
book is empty. -/
def calcLargeThreshold (d : DomBuilder) : ℚ :=
  let allSizes := d.bids.map (·.2) ++ d.asks.map (·.2)
  if allSizes.length = 0 then 100
  else allSizes.sum / (allSizes.length : ℚ) * 3

/-- Pulled-liquidity entries of one side: previous levels of at least the
large threshold whose price is gone from the current map. -/
def pulledSide (prev cur : List (ℚ × ℚ)) (thr : ℚ) (side : BookSide) :
    List PulledLevel :=
  (prev.filter fun e => decide (thr ≤ e.2) && decide (alGet cur e.1 = none)).map
    fun e => ⟨e.1, e.2, side, .removed⟩

/-- `DomBuilder.snapshot()`. -/
def DomBuilder.snapshot (d : DomBuilder) : DomSnapshot :=
  let bids := buildLevels d.maxLevels d.bids d.prevBids .bid
  let asks := buildLevels d.maxLevels d.asks d.prevAsks .ask
  let thr := calcLargeThreshold d
  { bids
    asks
    stackedBids := bids.filter fun l => decide (thr ≤ l.size) && decide (l.change ≠ .removed)
    stackedAsks := asks.filter fun l => decide (thr ≤ l.size) && decide (l.change ≠ .removed)
    pulledBids := pulledSide d.prevBids d.bids thr .bid
    pulledAsks := pulledSide d.prevAsks d.asks thr .ask
    bestBid := bids.head?.map (·.price)
    bestAsk := asks.head?.map (·.price)
    spread := match bids.head?, asks.head? with
      | some b, some a => some (a.price - b.price)
      | _, _ => none }

/-!
## Footprint aggregator (`aggregation.js`, class `FootprintAggregator`)
-/

/-- One footprint price level `{bidVol, askVol, delta}`. -/
structure FpLevel where
  bidVol : ℚ
  askVol : ℚ
  delta : ℚ
deriving DecidableEq, Repr

/-- A detected imbalance `{price, ratio, side}`. -/
structure Imb where
  price : ℚ
  ratio : ℚ
  side : BookSide
deriving DecidableEq, Repr

/-- A footprint bar; `open` is a Lean keyword, hence the trailing underscore
on the bar's `open` field. -/
structure FpBar where
  openTs : ℕ
  closeTs : ℕ
  open_ : ℚ
  high : ℚ
  low : ℚ
  close : ℚ
  totalVolume : ℚ
  totalDelta : ℚ
  totalBidVol : ℚ
  totalAskVol : ℚ
  levels : List (ℚ × FpLevel)
  imbalances : List Imb
deriving DecidableEq, Repr

/-- State of `FootprintAggregator`. -/
structure FootprintAggregator where
  barDurationMs : ℕ
  tickSize : ℚ
  imbalanceRatio : ℚ
  currentBar : Option FpBar
  completedBars : List FpBar
  maxBars : ℕ
deriving DecidableEq, Repr

/-- `new FootprintAggregator(barDurationMs, tickSize, imbalanceRatio)`. -/
def FootprintAggregator.init (barDurationMs : ℕ := 60000) (tickSize : ℚ := 1/4)
    (imbalanceRatio : ℚ := 3) : FootprintAggregator :=
  ⟨barDurationMs, tickSize, imbalanceRatio, none, [], 100⟩

/-- JS `Math.round`: half-up rounding, `Math.round(x) = ⌊x + 1/2⌋`. -/
def jsRound (q : ℚ) : ℤ := ⌊q + 1/2⌋

/-- `_roundToTick(price) = Math.round(price / tickSize) * tickSize`. -/
def roundToTick (tickSize price : ℚ) : ℚ :=
  (jsRound (price / tickSize) : ℚ) * tickSize

/-- The bar bucket key `Math.floor(ts / barDurationMs) * barDurationMs`. -/
def barKey (barDurationMs ts : ℕ) : ℕ :=
  ts / barDurationMs * barDurationMs

/-- `_newBar(ts, price)`: a fresh bar seeded with the tick's price as OHLC
and zeroed volumes. -/
def newBar (barDurationMs : ℕ) (ts : ℕ) (price : ℚ) : FpBar :=
  let barOpen := barKey barDurationMs ts
  { openTs := barOpen
    closeTs := barOpen + barDurationMs
    open_ := price
    high := price
    low := price
    close := price
    totalVolume := 0
    totalDelta := 0
    totalBidVol := 0
    totalAskVol := 0
    levels := []
    imbalances := [] }

/-- The body of the imbalance loop in `_finalizeBar` for one adjacent pair
of occupied levels (`lower` at the smaller price `pLo`, `upper` at `pHi`):

```js
if (upper.bidVol > 0 && lower.askVol / upper.bidVol >= ratio)
  push({ price: pLo, ratio: lower.askVol / upper.bidVol, side: 'ask' });
if (lower.askVol > 0 && upper.bidVol / lower.askVol >= ratio)
  push({ price: pHi, ratio: upper.bidVol / lower.askVol, side: 'bid' });
```
-/
def detectPairImb (ratio : ℚ) (pLo pHi : ℚ) (lower upper : FpLevel) : List Imb :=
  (if 0 < upper.bidVol ∧ ratio ≤ lower.askVol / upper.bidVol then
    [⟨pLo, lower.askVol / upper.bidVol, .ask⟩]
  else []) ++
  (if 0 < lower.askVol ∧ ratio ≤ upper.bidVol / lower.askVol then
    [⟨pHi, upper.bidVol / lower.askVol, .bid⟩]
  else [])

/-- `_finalizeBar(bar)`: recompute `bar.imbalances` over ascending adjacent
occupied price levels; volumes and OHLC are untouched. -/
def finalizeBar (ratio : ℚ) (bar : FpBar) : FpBar :=
  let prices := (bar.levels.map (·.1)).mergeSort fun a b => decide (a ≤ b)
  let imbs := (prices.zip prices.tail).flatMap fun pr =>
    match alGet bar.levels pr.1, alGet bar.levels pr.2 with
    | some lower, some upper => detectPairImb ratio pr.1 pr.2 lower upper
    | _, _ => []
  { bar with imbalances := imbs }

/-- The per-tick mutation of the current bar in `ingest` (everything after
bar rotation): OHLC/volume update, level accumulation by side, and the
even split of an `unknown`-side trade. -/
def applyTick (tickSize : ℚ) (bar : FpBar) (t : Tick) : FpBar :=
  let high := if t.price > bar.high then t.price else bar.high
  let low := if t.price < bar.low then t.price else bar.low
  let rp := roundToTick tickSize t.price
  match t.side with
  | .buy =>
      { bar with
        high := high,
        low := low,
        close := t.price,
        totalVolume := bar.totalVolume + t.size,
        totalAskVol := bar.totalAskVol + t.size,
        totalDelta := bar.totalDelta + t.size,
        levels := alUpdate bar.levels rp ⟨0, 0, 0⟩ fun l =>
          { l with askVol := l.askVol + t.size, delta := l.delta + t.size } }
  | .sell =>
      { bar with
        high := high,
        low := low,
        close := t.price,
        totalVolume := bar.totalVolume + t.size,
        totalBidVol := bar.totalBidVol + t.size,
        totalDelta := bar.totalDelta - t.size,
        levels := alUpdate bar.levels rp ⟨0, 0, 0⟩ fun l =>
          { l with bidVol := l.bidVol + t.size, delta := l.delta - t.size } }
  | .unknown =>
      { bar with
        high := high,
        low := low,
        close := t.price,
        totalVolume := bar.totalVolume + t.size,
        totalBidVol := bar.totalBidVol + t.size / 2,
        totalAskVol := bar.totalAskVol + t.size / 2,
        levels := alUpdate bar.levels rp ⟨0, 0, 0⟩ fun l =>
          { l with bidVol := l.bidVol + t.size / 2, askVol := l.askVol + t.size / 2 } }

/-- `FootprintAggregator.ingest(tick)`: rotate the bar when the tick's
bucket differs from the current bar's key (finalize, push capped at
`maxBars`, seed a new bar), then apply the tick to the current bar. -/
def FootprintAggregator.ingest (a : FootprintAggregator) (t : Tick) :
    FootprintAggregator :=
  let barTs := barKey a.barDurationMs t.ts
  let rotated :=
    match a.currentBar with
    | none => { a with currentBar := some (newBar a.barDurationMs t.ts t.price) }
    | some b =>
        if b.openTs = barTs then a
        else
          let pushed := a.completedBars ++ [finalizeBar a.imbalanceRatio b]
          { a with
            completedBars := if pushed.length > a.maxBars then pushed.drop 1 else pushed
            currentBar := some (newBar a.barDurationMs t.ts t.price) }
  match rotated.currentBar with
  | none => rotated
  | some b => { rotated with currentBar := some (applyTick rotated.tickSize b t) }

/-- Ingest a whole trade sequence, oldest first. -/
def FootprintAggregator.ingestAll (a : FootprintAggregator) (ts : List Tick) :
    FootprintAggregator :=
  ts.foldl FootprintAggregator.ingest a

/-- Every bar held by the aggregator: completed bars plus the current one. -/
def FootprintAggregator.bars (a : FootprintAggregator) : List FpBar :=
  a.completedBars ++ (match a.currentBar with
    | some b => [b]
    | none => [])

/-!
## CVD calculator (`aggregation.js`, class `CvdCalculator`)
-/

/-- A CVD point `{ts, cvd, barDelta}`. -/
structure CvdPoint where
  ts : ℕ
  cvd : ℚ
  barDelta : ℚ
deriving DecidableEq, Repr

/-- State of `CvdCalculator`. -/
structure CvdCalculator where
  sessionCvd : ℚ
  barCvd : ℚ
  history : List CvdPoint
  maxHistory : ℕ
  sessionStart : ℕ
  currentBarTs : Option ℕ
  barDurationMs : ℕ
deriving DecidableEq, Repr

/-- `new CvdCalculator()` at wall-clock time `now`. -/
def CvdCalculator.init (now : ℕ) : CvdCalculator :=
  ⟨0, 0, [], 500, now, none, 60000⟩

/-- The per-tick CVD delta: `+size` for buy, `-size` for sell, `0` for
unknown. -/
def cvdDelta (t : Tick) : ℚ :=
  match t.side with
  | .buy => t.size
  | .sell => -t.size
  | .unknown => 0

/-- `CvdCalculator.ingest(tick)`: returns the emitted point and the new
state; the per-bar delta resets when the tick's bucket differs from
`currentBarTs`. -/
def CvdCalculator.ingest (c : CvdCalculator) (t : Tick) :
    CvdPoint × CvdCalculator :=
  let delta := cvdDelta t
  let sessionCvd := c.sessionCvd + delta
  let barTs := barKey c.barDurationMs t.ts
  let barBase := if c.currentBarTs = some barTs then c.barCvd else 0
  let barCvd := barBase + delta
  let point : CvdPoint := ⟨t.ts, sessionCvd, barCvd⟩
  let history := c.history ++ [point]
  ( point
  , { c with
      sessionCvd
      barCvd
      currentBarTs := some barTs
      history := if history.length > c.maxHistory then history.drop 1 else history } )

/-- `CvdCalculator.resetSession()` at wall-clock time `now`: zeroes the
cumulative value, clears the history, restamps the session start — and
touches nothing else. -/
def CvdCalculator.resetSession (c : CvdCalculator) (now : ℕ) : CvdCalculator :=
  { c with sessionCvd := 0, history := [], sessionStart := now }

/-!
## Tape metrics (`aggregation.js`, class `MetricsCalculator`)
-/

/-- A buffered recent trade `{ts, price, size, side}`. -/
structure RTrade where
  ts : ℕ
  price : ℚ
  size : ℚ
  side : Side
deriving DecidableEq, Repr

/-- The absorption payload `{ totalVol, priceRange, ts }` built by
`MetricsCalculator.ingest`; the source object has exactly these three
fields (no directional bias). -/
structure Absorption where
  totalVol : ℚ
  priceRange : ℚ
  ts : ℕ
deriving DecidableEq, Repr

/-- The value returned by `MetricsCalculator.ingest`. -/
structure MetricsResult where
  tapeSpeed : ℕ
  isLarge : Bool
  absorption : Option Absorption
deriving DecidableEq, Repr

/-- State of `MetricsCalculator` (the never-written `absorptionEvents`
array is omitted; `ingest` only reads and writes the fields below). -/
structure MetricsCalculator where
  largePrintThreshold : ℚ
  absorptionWindow : ℕ
  speedWindow : ℕ
  recentTrades : List RTrade
  tapeSpeed : ℕ
deriving DecidableEq, Repr

/-- `new MetricsCalculator({})` with the default config. -/
def MetricsCalculator.init : MetricsCalculator :=
  ⟨50, 5000, 1000, [], 0⟩

/-- `Math.max(...)` over a price list (callers guarantee nonemptiness). -/
def listMax (l : List ℚ) : ℚ :=
  l.foldl max (l.head?.getD 0)

/-- `Math.min(...)` over a price list (callers guarantee nonemptiness). -/
def listMin (l : List ℚ) : ℚ :=
  l.foldl min (l.head?.getD 0)

/-- `window.slice(-20)`: the most recent 20 buffered trades. -/
def absorbSlice (recent : List RTrade) : List RTrade :=
  recent.drop (recent.length - 20)

/-- The absorption check of `MetricsCalculator.ingest`: with at least 10
trades buffered, look at the most recent 20; flag when their price range is
strictly below `2 * 0.25` (a hard-coded half point) and their summed size
strictly exceeds `largePrintThreshold * 5`. -/
def absorbCheck (thr : ℚ) (now : ℕ) (recent : List RTrade) : Option Absorption :=
  if 10 ≤ recent.length then
    let window := absorbSlice recent
    let totalVol := (window.map (·.size)).sum
    let priceRange := listMax (window.map (·.price)) - listMin (window.map (·.price))
    if priceRange < 2 * (1/4) ∧ totalVol > thr * 5 then
      some ⟨totalVol, priceRange, now⟩
    else none
  else none

/-- The post-trim buffer of `MetricsCalculator.ingest`: drop entries at or
beyond the absorption window, then push the incoming trade. -/
def metricsRecent (m : MetricsCalculator) (t : Tick) : List RTrade :=
  (m.recentTrades.filter fun r =>
    decide ((r.ts : ℤ) > (t.ts : ℤ) - (m.absorptionWindow : ℤ))) ++
  [⟨t.ts, t.price, t.size, t.side⟩]

/-- `MetricsCalculator.ingest(tick)`: returns `{tapeSpeed, isLarge,
absorption}` and the new state. -/
def MetricsCalculator.ingest (m : MetricsCalculator) (t : Tick) :
    MetricsResult × MetricsCalculator :=
  let recent := metricsRecent m t
  let tapeSpeed := (recent.filter fun r =>
    decide ((r.ts : ℤ) > (t.ts : ℤ) - (m.speedWindow : ℤ))).length
  let isLarge := decide (t.size ≥ m.largePrintThreshold)
  let absorption := absorbCheck m.largePrintThreshold t.ts recent
  (⟨tapeSpeed, isLarge, absorption⟩, { m with recentTrades := recent, tapeSpeed })

/-- Run a trade sequence through the metrics calculator, returning the last
`ingest` result (if any) and the final state. -/
def MetricsCalculator.run (m : MetricsCalculator) (ts : List Tick) :
    Option MetricsResult × MetricsCalculator :=
  ts.foldl (fun acc t =>
    let r := acc.2.ingest t
    (some r.1, r.2)) (none, m)

/-!
## Alert evaluator (`aggregation.js`, class `AlertEvaluator`)

Alerts are modelled by their type; the uuid, message string and wall-clock
stamp of `_makeAlert` carry no logic and are elided.
-/

/-- The four alert types. -/
inductive AlertType where
  | largePrint
  | deltaThreshold
  | tapeSpeed
  | domImbalance
deriving DecidableEq, Repr

/-- The evaluator's threshold configuration. -/
structure AlertConfig where
  deltaThreshold : ℚ
  largePrintSize : ℚ
  tapeSpeedThreshold : ℚ
  domImbalanceRatio : ℚ
deriving DecidableEq, Repr

/-- State of `AlertEvaluator`: config plus the `type → last fired ts`
throttle map. -/
structure AlertEvaluator where
  config : AlertConfig
  recentAlerts : AlertType → Option ℕ
  throttleMs : ℕ

/-- `new AlertEvaluator({})` with the default config and an empty throttle
map. -/
def AlertEvaluator.init : AlertEvaluator :=
  ⟨⟨500, 50, 30, 5⟩, fun _ => none, 3000⟩

/-- The evaluation context `{tick, cvdPoint, metrics, dom}`. -/
structure AlertCtx where
  tick : Tick
  cvdPoint : Option CvdPoint
  metrics : Option MetricsResult
  dom : Option DomSnapshot

/-- `_canAlert(type)` at wall-clock time `now`: fires when no stamp is
recorded (or the recorded stamp is `0`, which JS treats as falsy) or the
throttle window has elapsed; firing records `now`, a drop leaves the map
untouched. -/
def AlertEvaluator.canAlert (ev : AlertEvaluator) (τ : AlertType) (now : ℕ) :
    Bool × AlertEvaluator :=
  match ev.recentAlerts τ with
  | none =>
      (true, { ev with recentAlerts := fun σ => if σ = τ then some now else ev.recentAlerts σ })
  | some last =>
      if last = 0 ∨ (now : ℤ) - (last : ℤ) > (ev.throttleMs : ℤ) then
        (true, { ev with recentAlerts := fun σ => if σ = τ then some now else ev.recentAlerts σ })
      else (false, ev)

/-- Whether the context qualifies for an alert type, i.e. the guard in front
of the corresponding `_canAlert` call in `evaluate`. -/
def qualifies (cfg : AlertConfig) (ctx : AlertCtx) : AlertType → Bool
  | .largePrint =>
      match ctx.metrics with
      | some m => m.isLarge
      | none => false
  | .deltaThreshold =>
      match ctx.cvdPoint with
      | some p => decide (|p.cvd| ≥ cfg.deltaThreshold)
      | none => false
  | .tapeSpeed =>
      match ctx.metrics with
      | some m => decide ((m.tapeSpeed : ℚ) ≥ cfg.tapeSpeedThreshold)
      | none => false
  | .domImbalance =>
      match ctx.dom with
      | some dom =>
          let bestBidSize : ℚ := (dom.bids.head?.map (·.size)).getD 0
          let bestAskSize : ℚ := (dom.asks.head?.map (·.size)).getD 0
          decide (bestBidSize > 0) && decide (bestAskSize > 0) &&
            decide (max (bestBidSize / bestAskSize) (bestAskSize / bestBidSize)
              ≥ cfg.domImbalanceRatio)
      | none => false

/-- One guarded check of `evaluate`: consult the throttle only when the
context qualifies (JS short-circuit `qualifying && this._canAlert(type)`). -/
def alertStep (ctx : AlertCtx) (now : ℕ) (acc : List AlertType × AlertEvaluator)
    (τ : AlertType) : List AlertType × AlertEvaluator :=
  if qualifies acc.2.config ctx τ then
    let r := acc.2.canAlert τ now
    (acc.1 ++ if r.1 then [τ] else [], r.2)
  else acc

/-- `AlertEvaluator.evaluate({tick, cvdPoint, metrics, dom})` at wall-clock
time `now`: the four checks in source order, threading the throttle map. -/
def AlertEvaluator.evaluate (ev : AlertEvaluator) (ctx : AlertCtx) (now : ℕ) :
    List AlertType × AlertEvaluator :=
  [AlertType.largePrint, AlertType.deltaThreshold, AlertType.tapeSpeed,
    AlertType.domImbalance].foldl (alertStep ctx now) ([], ev)

/-!
## Ring buffer (`RingBuffer` utility)
-/

/-- State of `RingBuffer`: `new Array(capacity)` is a fixed-length slot
vector of `undefined`, modelled as a `capacity`-length list of `Option`. -/
structure RingBuffer (α : Type) where
  capacity : ℕ
  buffer : List (Option α)
  head : ℕ
  size : ℕ
deriving DecidableEq, Repr

/-- `new RingBuffer(capacity)`. -/
def RingBuffer.init (α : Type) (capacity : ℕ) : RingBuffer α :=
  ⟨capacity, List.replicate capacity none, 0, 0⟩

/-- `push(item)`: write at `head`, advance `head` modulo the capacity, grow
`size` up to the capacity. -/
def RingBuffer.push (r : RingBuffer α) (item : α) : RingBuffer α :=
  { r with
    buffer := r.buffer.set r.head (some item)
    head := (r.head + 1) % r.capacity
    size := if r.size < r.capacity then r.size + 1 else r.size }

/-- Push a whole sequence in order. -/
def RingBuffer.pushAll (r : RingBuffer α) (items : List α) : RingBuffer α :=
  items.foldl RingBuffer.push r

/-- The `while (pos !== head)` walk of `drainSince`, with fuel bounding the
number of slots visited (the JS loop visits fewer than `capacity` slots). -/
def drainAux (buf : List (Option α)) (cap headPos : ℕ) : ℕ → ℕ → List α
  | 0, _ => []
  | fuel + 1, pos =>
      if pos = headPos then []
      else
        (match buf[pos]? with
          | some (some x) => [x]
          | _ => []) ++ drainAux buf cap headPos fuel ((pos + 1) % cap)

/-- `drainSince(lastHead)`: nothing when the head has not moved, otherwise
walk from the saved cursor to the current head collecting defined slots. -/
def RingBuffer.drainSince (r : RingBuffer α) (lastHead : ℕ) : List α :=
  if lastHead = r.head then []
  else drainAux r.buffer r.capacity r.head r.capacity lastHead

/-!
## Replay engines

Two replay implementations exist in the repository: the one exported next
to `AggregationEngine` (whose `play` throws `'No ticks loaded. Call load()
first.'` on an empty loaded set) and the one in `storage.js` (whose `play`
silently returns on an empty loaded set).  Only the control flow of `play`
is modelled; the timer-driven `_playNext`/`_scheduleNext` delivery is out of
scope for these claims.
-/

/-- State of the engine-module `ReplayEngine`. -/
structure EngineReplay where
  ticks : List Tick
  idx : ℕ
  running : Bool
  speed : ℚ
deriving DecidableEq, Repr

/-- `ReplayEngine.play(speed)` of the engine module: `speed || 1.0` (so a
falsy `0` or absent argument becomes 1), an explicit thrown error when no
ticks are loaded, otherwise the engine starts running. -/
def EngineReplay.play (r : EngineReplay) (speed : Option ℚ) :
    Except String EngineReplay :=
  let sp := match speed with
    | some s => if s = 0 then 1 else s
    | none => 1
  if r.ticks.length = 0 then
    .error "No ticks loaded. Call load() first."
  else
    .ok { r with speed := sp, running := true }

/-- State of the `storage.js` `ReplayEngine`. -/
structure StorageReplay where
  ticks : List Tick
  pos : ℕ
  speed : ℚ
  playing : Bool
  startRealTs : ℕ
  startTickTs : ℕ
deriving DecidableEq, Repr

/-- `ReplayEngine.play(speed)` of `storage.js` at wall-clock time `now`:

```js
play(speed = 1.0) {
  if (this._ticks.length === 0) return;
  this._speed = speed; this._playing = true; ...
}
```

On an empty loaded set it returns with the state untouched — no error. -/
def StorageReplay.play (r : StorageReplay) (speed : ℚ) (now : ℕ) : StorageReplay :=
  if r.ticks.length = 0 then r
  else
    { r with
      speed := speed
      playing := true
      startRealTs := now
      startTickTs := ((r.ticks.get? r.pos).map (·.ts)).getD now }

/-!
## Invariant predicates and specification conditions

Definitions used by the theorems below: the footprint invariants of claim
C3, a ring-buffer well-formedness predicate, and the `_canAlert` firing
condition written as a function of the recorded stamp.
-/

/-- Per-level invariant: `delta == askVol - bidVol`. -/
def FpLevel.Inv (l : FpLevel) : Prop :=
  l.delta = l.askVol - l.bidVol

/-- Per-bar invariant: the level and bar-scope delta identities, and the
OHLC ordering `low ≤ open, close ≤ high`. -/
def FpBar.Inv (b : FpBar) : Prop :=
  (∀ e ∈ b.levels, e.2.Inv) ∧
  b.totalDelta = b.totalAskVol - b.totalBidVol ∧
  b.low ≤ b.open_ ∧ b.low ≤ b.close ∧ b.open_ ≤ b.high ∧ b.close ≤ b.high

/-- Aggregator invariant: every held bar satisfies the bar invariant. -/
def FootprintAggregator.Inv (a : FootprintAggregator) : Prop :=
  ∀ b ∈ a.bars, b.Inv

/-- Well-formedness of a ring-buffer state: positive capacity, head inside
the slot vector, slot vector of exactly `capacity` slots.  Every state
reachable from `RingBuffer.init` with positive capacity satisfies it. -/
def RingBuffer.WF {α : Type} (r : RingBuffer α) : Prop :=
  0 < r.capacity ∧ r.head < r.capacity ∧ r.buffer.length = r.capacity

/-- The firing condition of `_canAlert` as a function of the recorded
stamp: fire when nothing (or the falsy stamp `0`) is recorded, or when more
than `throttleMs` has elapsed. -/
def fireCond (last : Option ℕ) (now thr : ℕ) : Bool :=
  match last with
  | none => true
  | some l => decide (l = 0) || decide ((now : ℤ) - (l : ℤ) > (thr : ℤ))

/-!
## Association-list lemmas
-/

theorem mem_alSet {β : Type} {m : List (ℚ × β)} {p : ℚ} {v : β} {e : ℚ × β}
    (h : e ∈ alSet m p v) : e = (p, v) ∨ e ∈ m := by
  induction m with
  | nil => simpa [alSet] using h
  | cons hd tl ih =>
      by_cases hp : hd.1 = p
      · simp only [alSet, if_pos hp, List.mem_cons] at h
        rcases h with h | h
        · exact Or.inl h
        · exact Or.inr (List.mem_cons_of_mem _ h)
      · simp only [alSet, if_neg hp, List.mem_cons] at h
        rcases h with h | h
        · exact Or.inr (by simp [h])
        · rcases ih h with h' | h'
          · exact Or.inl h'
          · exact Or.inr (List.mem_cons_of_mem _ h')

theorem alGet_mem {β : Type} {m : List (ℚ × β)} {p : ℚ} {v : β}
    (h : alGet m p = some v) : (p, v) ∈ m := by
  unfold alGet at h
  rcases hf : m.find? (fun e => decide (e.1 = p)) with _ | e
  · simp [hf] at h
  · have hmem := List.mem_of_find?_eq_some hf
    have hkey := List.find?_some hf
    simp only [decide_eq_true_eq] at hkey
    simp only [hf, Option.map_some'] at h
    have hv : e.2 = v := by simpa using h
    obtain ⟨e1, e2⟩ := e
    simp only at hkey hv
    rw [← hkey, ← hv]
    exact hmem

theorem alGet_alSet_self {β : Type} (m : List (ℚ × β)) (p : ℚ) (v : β) :
    alGet (alSet m p v) p = some v := by
  induction m with
  | nil => simp [alSet, alGet]
  | cons hd tl ih =>
      by_cases hp : hd.1 = p
      · simp [alSet, hp, alGet]
      · simp [alSet, hp, alGet, List.find?] at ih ⊢
        simpa [hp] using ih

theorem alGet_alUpdate_self {β : Type} (m : List (ℚ × β)) (p : ℚ) (dflt : β)
    (f : β → β) :
    alGet (alUpdate m p dflt f) p = some (f ((alGet m p).getD dflt)) :=
  alGet_alSet_self m p _

theorem mem_alUpdate {β : Type} {m : List (ℚ × β)} {p : ℚ} {dflt : β}
    {f : β → β} {e : ℚ × β} (h : e ∈ alUpdate m p dflt f) :
    e = (p, f ((alGet m p).getD dflt)) ∨ e ∈ m :=
  mem_alSet h

/-!
## Claim theorems
-/

/-- **C1.** Aggressor-side inference is the deterministic pure cascade the
spec describes: book rule when both sides are known (`price ≥ ask ⇒ buy`,
`price ≤ bid ⇒ sell`), tick rule against a known previous trade price
otherwise or on fall-through (`>` buy, `<` sell, equal falls through), and
`unknown` when nothing decides; in particular `inferSide(100, _, _, _) =
unknown`, and each of the spec's five sample values holds.  There is no
randomness: `inferSide` is a total function of its four arguments. -/
theorem inferSide_deterministic_cascade :
    (∀ (price : ℚ) (prev bid ask : Option ℚ),
      inferSide price prev bid ask = specInferSide price prev bid ask)
    ∧ inferSide (201/2) none (some 100) (some (201/2)) = .buy
    ∧ inferSide 100 none (some 100) (some (201/2)) = .sell
    ∧ inferSide 101 (some 100) none none = .buy
    ∧ inferSide 99 (some 100) none none = .sell
    ∧ inferSide 100 none none none = .unknown := by
  refine ⟨?_,
    by norm_num [inferSide, inferSideTickRule],
    by norm_num [inferSide, inferSideTickRule],
    by norm_num [inferSide, inferSideTickRule],
    by norm_num [inferSide, inferSideTickRule],
    by norm_num [inferSide, inferSideTickRule]⟩
  intro price prev bid ask
  rcases bid with _ | b <;> rcases ask with _ | a <;> rcases prev with _ | pv <;>
    simp only [inferSide, specInferSide, specBookRule, specTickRule,
      inferSideTickRule, Option.bind, Option.orElse, Option.getD] <;>
    split_ifs <;> simp_all

/-- **C5.** In per-bar imbalance detection over an adjacent pair of occupied
levels, the ask-side flag at the lower price appears exactly when
`upper.bidVol > 0` and `lower.askVol / upper.bidVol ≥ imbalanceRatio`, the
bid-side flag at the upper price exactly when `lower.askVol > 0` and
`upper.bidVol / lower.askVol ≥ imbalanceRatio`, and a zero denominator
produces no flag of the corresponding side (the ratio is only used under
the non-zero guard). -/
theorem imbalance_flag_characterization :
    ∀ (ratio pLo pHi : ℚ) (lower upper : FpLevel),
      ((Imb.mk pLo (lower.askVol / upper.bidVol) .ask ∈
          detectPairImb ratio pLo pHi lower upper) ↔
        (0 < upper.bidVol ∧ lower.askVol / upper.bidVol ≥ ratio))
      ∧ ((Imb.mk pHi (upper.bidVol / lower.askVol) .bid ∈
          detectPairImb ratio pLo pHi lower upper) ↔
        (0 < lower.askVol ∧ upper.bidVol / lower.askVol ≥ ratio))
      ∧ (upper.bidVol = 0 →
          ∀ e ∈ detectPairImb ratio pLo pHi lower upper, e.side ≠ .ask)
      ∧ (lower.askVol = 0 →
          ∀ e ∈ detectPairImb ratio pLo pHi lower upper, e.side ≠ .bid) := by
  intro ratio pLo pHi lower upper
  have hmem : ∀ e : Imb, e ∈ detectPairImb ratio pLo pHi lower upper ↔
      ((0 < upper.bidVol ∧ ratio ≤ lower.askVol / upper.bidVol) ∧
        e = ⟨pLo, lower.askVol / upper.bidVol, .ask⟩) ∨
      ((0 < lower.askVol ∧ ratio ≤ upper.bidVol / lower.askVol) ∧
        e = ⟨pHi, upper.bidVol / lower.askVol, .bid⟩) := by
    intro e
    unfold detectPairImb
    by_cases h1 : 0 < upper.bidVol ∧ ratio ≤ lower.askVol / upper.bidVol <;>
      by_cases h2 : 0 < lower.askVol ∧ ratio ≤ upper.bidVol / lower.askVol <;>
        simp [h1, h2]
  refine ⟨?_, ?_, ?_, ?_⟩
  · rw [hmem]
    simp [Imb.mk.injEq, ge_iff_le]
  · rw [hmem]
    simp [Imb.mk.injEq, ge_iff_le]
  · intro h0 e he
    rw [hmem] at he
    rcases he with ⟨⟨hpos, _⟩, _⟩ | ⟨_, rfl⟩
    · exact absurd (h0 ▸ hpos) (lt_irrefl 0)
    · simp
  · intro h0 e he
    rw [hmem] at he
    rcases he with ⟨_, rfl⟩ | ⟨⟨hpos, _⟩, _⟩
    · simp
    · exact absurd (h0 ▸ hpos) (lt_irrefl 0)

/-- Witness for `imbalance_flag_characterization`: with `lower.askVol = 9`
resting against `upper.bidVol = 3` and ratio 3, the ask-side flag at the
lower price is present. -/
theorem imbalance_flag_characterization_witness :
    (0 < (3 : ℚ) ∧ (9 : ℚ) / 3 ≥ 3) ∧
    Imb.mk 100 ((9 : ℚ) / 3) .ask ∈
      detectPairImb 3 100 101 ⟨0, 9, 9⟩ ⟨3, 0, -3⟩ := by
  have hcond : 0 < (3 : ℚ) ∧ (9 : ℚ) / 3 ≥ 3 := by norm_num
  exact ⟨hcond,
    (imbalance_flag_characterization 3 100 101 ⟨0, 9, 9⟩ ⟨3, 0, -3⟩).1.mpr hcond⟩

/-!
## Footprint bar invariants (claim C3 machinery)
-/

theorem newBar_inv (d ts : ℕ) (p : ℚ) : (newBar d ts p).Inv := by
  refine ⟨?_, ?_, ?_, ?_, ?_, ?_⟩ <;> simp [newBar]

theorem finalizeBar_inv {ratio : ℚ} {b : FpBar} (h : b.Inv) :
    (finalizeBar ratio b).Inv := by
  obtain ⟨h1, h2, h3⟩ := h
  exact ⟨h1, h2, h3⟩

theorem applyTick_inv {tickSize : ℚ} {b : FpBar} {t : Tick} (h : b.Inv) :
    (applyTick tickSize b t).Inv := by
  obtain ⟨hl, hd, h3, h4, h5, h6⟩ := h
  have hhigh : b.high ≤ (if t.price > b.high then t.price else b.high) := by
    split_ifs with hc
    · exact le_of_lt hc
    · exact le_refl _
  have hhigh' : t.price ≤ (if t.price > b.high then t.price else b.high) := by
    split_ifs with hc
    · exact le_refl _
    · exact le_of_not_lt hc
  have hlow : (if t.price < b.low then t.price else b.low) ≤ b.low := by
    split_ifs with hc
    · exact le_of_lt hc
    · exact le_refl _
  have hlow' : (if t.price < b.low then t.price else b.low) ≤ t.price := by
    split_ifs with hc
    · exact le_refl _
    · exact le_of_not_lt hc
  have hlvl : ∀ (f : FpLevel → FpLevel),
      (∀ l, l.Inv → (f l).Inv) →
      ∀ e ∈ alUpdate b.levels (roundToTick tickSize t.price) ⟨0, 0, 0⟩ f, e.2.Inv := by
    intro f hf e he
    rcases mem_alUpdate he with rfl | he'
    · rcases hget : alGet b.levels (roundToTick tickSize t.price) with _ | l
      · simp only [hget, Option.getD_none]
        exact hf _ (by simp [FpLevel.Inv])
      · simp only [hget, Option.getD_some]
        exact hf _ (hl _ (alGet_mem hget))
    · exact hl _ he'
  cases hside : t.side with
  | buy =>
      refine ⟨?_, ?_, ?_, ?_, ?_, ?_⟩ <;>
        simp only [applyTick, hside]
      · exact hlvl _ fun l hli => by simp [FpLevel.Inv] at hli ⊢; linarith
      · linarith
      · exact le_trans hlow h3
      · exact hlow'
      · exact le_trans h5 hhigh
      · exact hhigh'
  | sell =>
      refine ⟨?_, ?_, ?_, ?_, ?_, ?_⟩ <;>
        simp only [applyTick, hside]
      · exact hlvl _ fun l hli => by simp [FpLevel.Inv] at hli ⊢; linarith
      · linarith
      · exact le_trans hlow h3
      · exact hlow'
      · exact le_trans h5 hhigh
      · exact hhigh'
  | unknown =>
      refine ⟨?_, ?_, ?_, ?_, ?_, ?_⟩ <;>
        simp only [applyTick, hside]
      · exact hlvl _ fun l hli => by simp [FpLevel.Inv] at hli ⊢; linarith
      · linarith
      · exact le_trans hlow h3
      · exact hlow'
      · exact le_trans h5 hhigh
      · exact hhigh'

theorem ingest_inv {a : FootprintAggregator} {t : Tick} (h : a.Inv) :
    (a.ingest t).Inv := by
  intro bb hbb
  have hcompleted : ∀ c ∈ a.completedBars, c.Inv := fun c hc =>
    h c (by simp [FootprintAggregator.bars, hc])
  rcases hcur : a.currentBar with _ | b
  · simp only [FootprintAggregator.ingest, hcur, FootprintAggregator.bars,
      List.mem_append, List.mem_singleton] at hbb
    rcases hbb with hbb | rfl
    · exact hcompleted _ hbb
    · exact applyTick_inv (newBar_inv _ _ _)
  · have hbinv : b.Inv := h b (by simp [FootprintAggregator.bars, hcur])
    by_cases hkey : b.openTs = barKey a.barDurationMs t.ts
    · simp only [FootprintAggregator.ingest, hcur, if_pos hkey,
        FootprintAggregator.bars, List.mem_append, List.mem_singleton] at hbb
      rcases hbb with hbb | rfl
      · exact hcompleted _ hbb
      · exact applyTick_inv hbinv
    · simp only [FootprintAggregator.ingest, hcur, if_neg hkey,
        FootprintAggregator.bars, List.mem_append, List.mem_singleton] at hbb
      rcases hbb with hbb | rfl
      · have hfull : bb ∈ a.completedBars ++ [finalizeBar a.imbalanceRatio b] := by
          split_ifs at hbb with hlen
          · exact List.mem_of_mem_drop hbb
          · exact hbb
        rcases List.mem_append.mp hfull with hbb' | hbb'
        · exact hcompleted _ hbb'
        · have heq : bb = finalizeBar a.imbalanceRatio b := by simpa using hbb'
          exact heq ▸ finalizeBar_inv hbinv
      · exact applyTick_inv (newBar_inv _ _ _)

theorem ingestAll_inv {a : FootprintAggregator} (ticks : List Tick) (h : a.Inv) :
    (a.ingestAll ticks).Inv := by
  induction ticks generalizing a with
  | nil => exact h
  | cons hd tl ih => exact ih (ingest_inv h)

/-- **C3.** For every trade sequence ingested from a fresh aggregator, every
held bar — completed or current — satisfies `delta == askVol - bidVol` at
the level scope and `totalDelta == totalAskVol - totalBidVol` at the bar
scope, with `high ≥ max(open, close) ≥ low`. -/
theorem footprint_bar_invariants (dur : ℕ) (tickSize ratio : ℚ)
    (ticks : List Tick) :
    ∀ b ∈ ((FootprintAggregator.init dur tickSize ratio).ingestAll ticks).bars,
      (∀ e ∈ b.levels, e.2.delta = e.2.askVol - e.2.bidVol) ∧
      b.totalDelta = b.totalAskVol - b.totalBidVol ∧
      max b.open_ b.close ≤ b.high ∧ b.low ≤ max b.open_ b.close := by
  have hinit : (FootprintAggregator.init dur tickSize ratio).Inv := by
    intro b hb
    simp [FootprintAggregator.init, FootprintAggregator.bars] at hb
  intro b hb
  obtain ⟨h1, h2, h3, h4, h5, h6⟩ := ingestAll_inv ticks hinit b hb
  exact ⟨h1, h2, max_le h5 h6, le_max_of_le_left h3⟩

/-- Witness for `footprint_bar_invariants`: one buy of size 10 at 100 into
a fresh aggregator (tick size 1) yields a current bar in `bars`, and the
claimed invariants hold for it. -/
theorem footprint_bar_invariants_witness :
    ((⟨0, 60000, 100, 100, 100, 100, 10, 10, 0, 10, [(100, ⟨0, 10, 10⟩)], []⟩ : FpBar) ∈
      ((FootprintAggregator.init 60000 1 3).ingestAll [⟨0, 100, 10, Side.buy⟩]).bars) ∧
    ((∀ e ∈ (⟨0, 60000, 100, 100, 100, 100, 10, 10, 0, 10, [(100, ⟨0, 10, 10⟩)], []⟩ : FpBar).levels,
        e.2.delta = e.2.askVol - e.2.bidVol) ∧
      (10 : ℚ) = 10 - 0 ∧
      max (100 : ℚ) 100 ≤ 100 ∧ (100 : ℚ) ≤ max 100 100) := by
  have hmem : (⟨0, 60000, 100, 100, 100, 100, 10, 10, 0, 10, [(100, ⟨0, 10, 10⟩)], []⟩ : FpBar) ∈
      ((FootprintAggregator.init 60000 1 3).ingestAll [⟨0, 100, 10, Side.buy⟩]).bars := by
    norm_num [FootprintAggregator.ingestAll, FootprintAggregator.ingest,
      FootprintAggregator.init, FootprintAggregator.bars, newBar, applyTick,
      alUpdate, alSet, alGet, roundToTick, jsRound, barKey]
  exact ⟨hmem, footprint_bar_invariants 60000 1 3 [⟨0, 100, 10, Side.buy⟩] _ hmem⟩

/-- **C4.** Ingesting an unknown-side trade of size `s` into the current
footprint bar adds `s/2` to both `bidVol` and `askVol` at the rounded price
level and to the bar totals while leaving `totalDelta` (and the level's
`delta`) unchanged, and the same tick moves the CVD cumulative value by 0 —
the CVD per-tick delta being `+size` for buy, `-size` for sell and `0` for
unknown. -/
theorem unknown_split_half_and_cvd_zero :
    ∀ (a : FootprintAggregator) (b : FpBar) (t : Tick) (c : CvdCalculator),
      a.currentBar = some b →
      b.openTs = barKey a.barDurationMs t.ts →
      t.side = .unknown →
      (∃ b', (a.ingest t).currentBar = some b' ∧
        b'.totalBidVol = b.totalBidVol + t.size / 2 ∧
        b'.totalAskVol = b.totalAskVol + t.size / 2 ∧
        b'.totalDelta = b.totalDelta ∧
        alGet b'.levels (roundToTick a.tickSize t.price) =
          some ⟨((alGet b.levels (roundToTick a.tickSize t.price)).getD ⟨0, 0, 0⟩).bidVol + t.size / 2,
            ((alGet b.levels (roundToTick a.tickSize t.price)).getD ⟨0, 0, 0⟩).askVol + t.size / 2,
            ((alGet b.levels (roundToTick a.tickSize t.price)).getD ⟨0, 0, 0⟩).delta⟩) ∧
      cvdDelta t = 0 ∧
      (c.ingest t).2.sessionCvd = c.sessionCvd ∧
      (c.ingest t).1.cvd = c.sessionCvd ∧
      (∀ t' : Tick, t'.side = .buy → cvdDelta t' = t'.size) ∧
      (∀ t' : Tick, t'.side = .sell → cvdDelta t' = -t'.size) := by
  intro a b t c hcur hkey hside
  have hdelta : cvdDelta t = 0 := by simp [cvdDelta, hside]
  refine ⟨?_, hdelta, ?_, ?_, ?_, ?_⟩
  · refine ⟨applyTick a.tickSize b t, ?_, ?_, ?_, ?_, ?_⟩
    · simp [FootprintAggregator.ingest, hcur, if_pos hkey.symm, hkey]
    · simp [applyTick, hside]
    · simp [applyTick, hside]
    · simp [applyTick, hside]
    · simp only [applyTick, hside]
      exact alGet_alUpdate_self _ _ _ _
  · simp [CvdCalculator.ingest, hdelta]
  · simp [CvdCalculator.ingest, hdelta]
  · intro t' h'
    simp [cvdDelta, h']
  · intro t' h'
    simp [cvdDelta, h']

/-- Witness for `unknown_split_half_and_cvd_zero`: a concrete empty current
bar, an unknown-side tick of size 10 in the same bucket, and a concrete CVD
state. -/
theorem unknown_split_half_and_cvd_zero_witness :
    ((⟨60000, 1, 3, some ⟨0, 60000, 100, 100, 100, 100, 0, 0, 0, 0, [], []⟩, [], 100⟩ :
        FootprintAggregator).currentBar =
      some ⟨0, 60000, 100, 100, 100, 100, 0, 0, 0, 0, [], []⟩) ∧
    ((⟨0, 60000, 100, 100, 100, 100, 0, 0, 0, 0, [], []⟩ : FpBar).openTs =
      barKey 60000 1) ∧
    ((⟨1, 100, 10, Side.unknown⟩ : Tick).side = .unknown) ∧
    ((∃ b', ((⟨60000, 1, 3, some ⟨0, 60000, 100, 100, 100, 100, 0, 0, 0, 0, [], []⟩, [], 100⟩ :
        FootprintAggregator).ingest ⟨1, 100, 10, Side.unknown⟩).currentBar = some b' ∧
        b'.totalBidVol = (0 : ℚ) + 10 / 2 ∧
        b'.totalAskVol = (0 : ℚ) + 10 / 2 ∧
        b'.totalDelta = (0 : ℚ) ∧
        alGet b'.levels (roundToTick 1 100) = some ⟨0 + 10 / 2, 0 + 10 / 2, 0⟩) ∧
      cvdDelta ⟨1, 100, 10, Side.unknown⟩ = 0 ∧
      ((CvdCalculator.init 0).ingest ⟨1, 100, 10, Side.unknown⟩).2.sessionCvd = 0 ∧
      ((CvdCalculator.init 0).ingest ⟨1, 100, 10, Side.unknown⟩).1.cvd = 0 ∧
      (∀ t' : Tick, t'.side = .buy → cvdDelta t' = t'.size) ∧
      (∀ t' : Tick, t'.side = .sell → cvdDelta t' = -t'.size)) := by
  refine ⟨rfl, by decide, rfl, ?_⟩
  have h := unknown_split_half_and_cvd_zero
    ⟨60000, 1, 3, some ⟨0, 60000, 100, 100, 100, 100, 0, 0, 0, 0, [], []⟩, [], 100⟩
    ⟨0, 60000, 100, 100, 100, 100, 0, 0, 0, 0, [], []⟩
    ⟨1, 100, 10, Side.unknown⟩ (CvdCalculator.init 0) rfl (by decide) rfl
  obtain ⟨h1, h2, h3, h4, h5, h6⟩ := h
  refine ⟨?_, h2, h3, h4, h5, h6⟩
  obtain ⟨b', hb1, hb2, hb3, hb4, hb5⟩ := h1
  refine ⟨b', hb1, ?_, ?_, ?_, ?_⟩
  · simpa using hb2
  · simpa using hb3
  · simpa using hb4
  · simpa [alGet] using hb5

/-- **C10.** `CvdCalculator.resetSession` zeroes the cumulative session
value and empties the history but leaves `barCvd` and `currentBarTs`
untouched, so the first tick ingested after a reset that falls in the same
bar bucket reports a `barDelta` of the pre-reset `barCvd` plus its own
delta. -/
theorem resetSession_preserves_bar_delta :
    ∀ (c : CvdCalculator) (now : ℕ),
      (c.resetSession now).barCvd = c.barCvd ∧
      (c.resetSession now).currentBarTs = c.currentBarTs ∧
      (c.resetSession now).sessionCvd = 0 ∧
      (c.resetSession now).history = [] ∧
      ∀ t : Tick, c.currentBarTs = some (barKey c.barDurationMs t.ts) →
        ((c.resetSession now).ingest t).1.barDelta = c.barCvd + cvdDelta t := by
  intro c now
  refine ⟨rfl, rfl, rfl, rfl, ?_⟩
  intro t hbar
  simp [CvdCalculator.ingest, CvdCalculator.resetSession, hbar]

/-- Witness for `resetSession_preserves_bar_delta`: a concrete CVD state
with `barCvd = 7` in bucket 0; the first post-reset tick in bucket 0
reports `barDelta = 7 + 10`. -/
theorem resetSession_preserves_bar_delta_witness :
    ((⟨5, 7, [], 500, 0, some 0, 60000⟩ : CvdCalculator).currentBarTs =
      some (barKey (60000 : ℕ) 1)) ∧
    (((⟨5, 7, [], 500, 0, some 0, 60000⟩ : CvdCalculator).resetSession 9).ingest
        ⟨1, 100, 10, Side.buy⟩).1.barDelta =
      (7 : ℚ) + cvdDelta ⟨1, 100, 10, Side.buy⟩ := by
  refine ⟨by decide, ?_⟩
  exact (resetSession_preserves_bar_delta ⟨5, 7, [], 500, 0, some 0, 60000⟩ 9).2.2.2.2
    ⟨1, 100, 10, Side.buy⟩ (by decide)

/-- **C2.** The two `ReplayEngine.play` implementations disagree on an
empty loaded set: the engine-module one returns the explicit error
`'No ticks loaded. Call load() first.'`, while the `storage.js` one is a
silent no-op — it returns with the state (including `playing = false`)
completely unchanged, so the caller sees no error and playback does not
start. -/
theorem replay_play_empty_divergence :
    (EngineReplay.play ⟨[], 0, false, 1⟩ (some 1) =
      Except.error "No ticks loaded. Call load() first.") ∧
    (StorageReplay.play ⟨[], 0, 1, false, 0, 0⟩ 1 5 = ⟨[], 0, 1, false, 0, 0⟩) ∧
    ((StorageReplay.play ⟨[], 0, 1, false, 0, 0⟩ 1 5).playing = false) :=
  ⟨rfl, rfl, rfl⟩

/-- **C7 (counterexample).** Ten buys of size 100 at prices 100 and 100.5
(all at ts 1000) leave at least 10 trades buffered, a window price range of
exactly `2 × 0.25` and a window volume of `1000 > largePrintThreshold × 5 =
250` — the claim's conditions (with `≤`) hold — yet `ingest` reports no
absorption, because the source compares the range with a strict `<`. -/
theorem absorption_boundary_counterexample :
    ((MetricsCalculator.init.run
        [⟨1000, 100, 100, Side.buy⟩, ⟨1000, 201/2, 100, Side.buy⟩,
         ⟨1000, 100, 100, Side.buy⟩, ⟨1000, 201/2, 100, Side.buy⟩,
         ⟨1000, 100, 100, Side.buy⟩, ⟨1000, 201/2, 100, Side.buy⟩,
         ⟨1000, 100, 100, Side.buy⟩, ⟨1000, 201/2, 100, Side.buy⟩,
         ⟨1000, 100, 100, Side.buy⟩, ⟨1000, 201/2, 100, Side.buy⟩]).1.map
      (·.absorption) = some none) ∧
    (10 ≤ (MetricsCalculator.init.run
        [⟨1000, 100, 100, Side.buy⟩, ⟨1000, 201/2, 100, Side.buy⟩,
         ⟨1000, 100, 100, Side.buy⟩, ⟨1000, 201/2, 100, Side.buy⟩,
         ⟨1000, 100, 100, Side.buy⟩, ⟨1000, 201/2, 100, Side.buy⟩,
         ⟨1000, 100, 100, Side.buy⟩, ⟨1000, 201/2, 100, Side.buy⟩,
         ⟨1000, 100, 100, Side.buy⟩, ⟨1000, 201/2, 100, Side.buy⟩]).2.recentTrades.length) ∧
    (listMax ((absorbSlice (MetricsCalculator.init.run
        [⟨1000, 100, 100, Side.buy⟩, ⟨1000, 201/2, 100, Side.buy⟩,
         ⟨1000, 100, 100, Side.buy⟩, ⟨1000, 201/2, 100, Side.buy⟩,
         ⟨1000, 100, 100, Side.buy⟩, ⟨1000, 201/2, 100, Side.buy⟩,
         ⟨1000, 100, 100, Side.buy⟩, ⟨1000, 201/2, 100, Side.buy⟩,
         ⟨1000, 100, 100, Side.buy⟩, ⟨1000, 201/2, 100, Side.buy⟩]).2.recentTrades).map
        (·.price)) -
      listMin ((absorbSlice (MetricsCalculator.init.run
        [⟨1000, 100, 100, Side.buy⟩, ⟨1000, 201/2, 100, Side.buy⟩,
         ⟨1000, 100, 100, Side.buy⟩, ⟨1000, 201/2, 100, Side.buy⟩,
         ⟨1000, 100, 100, Side.buy⟩, ⟨1000, 201/2, 100, Side.buy⟩,
         ⟨1000, 100, 100, Side.buy⟩, ⟨1000, 201/2, 100, Side.buy⟩,
         ⟨1000, 100, 100, Side.buy⟩, ⟨1000, 201/2, 100, Side.buy⟩]).2.recentTrades).map
        (·.price)) = 2 * (1/4)) ∧
    (((absorbSlice (MetricsCalculator.init.run
        [⟨1000, 100, 100, Side.buy⟩, ⟨1000, 201/2, 100, Side.buy⟩,
         ⟨1000, 100, 100, Side.buy⟩, ⟨1000, 201/2, 100, Side.buy⟩,
         ⟨1000, 100, 100, Side.buy⟩, ⟨1000, 201/2, 100, Side.buy⟩,
         ⟨1000, 100, 100, Side.buy⟩, ⟨1000, 201/2, 100, Side.buy⟩,
         ⟨1000, 100, 100, Side.buy⟩, ⟨1000, 201/2, 100, Side.buy⟩]).2.recentTrades).map
      (·.size)).sum > (50 : ℚ) * 5) := by
  refine ⟨?_, ?_, ?_, ?_⟩ <;>
    norm_num [MetricsCalculator.run, MetricsCalculator.ingest, MetricsCalculator.init,
      metricsRecent, absorbCheck, absorbSlice, listMax, listMin, max_def, min_def]

/-- **C7 (amended).** `MetricsCalculator.ingest` emits absorption exactly as
`absorbCheck` over the post-trim buffer, and `absorbCheck` yields an event
iff at least 10 trades are buffered, the price range of the most recent 20
is strictly below `2 × 0.25` (a hard-coded half point, not a configurable
tick size), and their summed size strictly exceeds `largePrintThreshold ×
5`; the event then carries exactly the total volume, the price range and
the timestamp — there is no directional-bias field. -/
theorem absorption_check_characterization :
    ∀ (m : MetricsCalculator) (t : Tick),
      (m.ingest t).1.absorption =
        absorbCheck m.largePrintThreshold t.ts (metricsRecent m t) ∧
      ∀ (thr : ℚ) (now : ℕ) (recent : List RTrade) (a : Absorption),
        (absorbCheck thr now recent = some a ↔
          (10 ≤ recent.length ∧
            listMax ((absorbSlice recent).map (·.price)) -
              listMin ((absorbSlice recent).map (·.price)) < 2 * (1/4) ∧
            ((absorbSlice recent).map (·.size)).sum > thr * 5 ∧
            a = ⟨((absorbSlice recent).map (·.size)).sum,
              listMax ((absorbSlice recent).map (·.price)) -
                listMin ((absorbSlice recent).map (·.price)), now⟩)) := by
  intro m t
  refine ⟨rfl, ?_⟩
  intro thr now recent a
  simp only [absorbCheck]
  split_ifs with h1 h2
  · simp only [Option.some_inj]
    constructor
    · intro he
      exact ⟨h1, h2.1, h2.2, he.symm⟩
    · rintro ⟨_, _, _, he⟩
      exact he.symm
  · constructor
    · intro he
      exact absurd he (by simp)
    · rintro ⟨_, hr, hv, _⟩
      exact absurd ⟨hr, hv⟩ h2
  · simp [h1]

/-!
## DOM lemmas (claim C6 machinery)
-/

theorem alGet_cons {β : Type} (e : ℚ × β) (m : List (ℚ × β)) (p : ℚ) :
    alGet (e :: m) p = if e.1 = p then some e.2 else alGet m p := by
  by_cases h : e.1 = p <;> simp [alGet, List.find?_cons, h]

theorem alGet_eq_some_iff {β : Type} {m : List (ℚ × β)} {p : ℚ} {v : β}
    (h : (m.map Prod.fst).Nodup) : alGet m p = some v ↔ (p, v) ∈ m := by
  constructor
  · exact alGet_mem
  · intro hmem
    induction m with
    | nil => simp at hmem
    | cons hd tl ih =>
        rw [alGet_cons]
        rcases List.mem_cons.mp hmem with rfl | hmem'
        · simp
        · have hk : p ∈ tl.map Prod.fst :=
            List.mem_map.mpr ⟨(p, v), hmem', rfl⟩
          have hne : hd.1 ≠ p := by
            intro he
            have hnin := (List.nodup_cons.mp h).1
            exact hnin (he ▸ hk)
          rw [if_neg hne]
          exact ih (List.nodup_cons.mp h).2 hmem'

theorem mem_pulledSide {prev cur : List (ℚ × ℚ)} {thr : ℚ} {side : BookSide}
    {p s : ℚ} :
    (⟨p, s, side, .removed⟩ : PulledLevel) ∈ pulledSide prev cur thr side ↔
      ((p, s) ∈ prev ∧ thr ≤ s ∧ alGet cur p = none) := by
  simp only [pulledSide, List.mem_map, List.mem_filter, Bool.and_eq_true,
    decide_eq_true_eq, PulledLevel.mk.injEq, and_true]
  constructor
  · rintro ⟨e, ⟨hmem, hthr, hnone⟩, he1, he2⟩
    rw [← he1, ← he2]
    exact ⟨hmem, hthr, hnone⟩
  · rintro ⟨hmem, hthr, hnone⟩
    exact ⟨(p, s), ⟨hmem, hthr, hnone⟩, rfl, rfl⟩

theorem classify_spec (s : ℚ) (ps : Option ℚ) :
    (classify s ps = .added ↔ ps = none) ∧
    (classify s ps = .modified ↔ ∃ x, ps = some x ∧ x ≠ s) ∧
    (classify s ps = .unchanged ↔ ps = some s) := by
  rcases ps with _ | x
  · simp [classify]
  · rcases lt_trichotomy s x with hc | hc | hc
    · have h1 : ¬ s > x := not_lt_of_lt hc
      simp only [classify, if_neg h1, if_pos hc]
      refine ⟨by simp, ?_, ?_⟩
      · simp only [true_iff]
        exact ⟨x, rfl, fun he => absurd he.symm (ne_of_lt hc)⟩
      · simp [(ne_of_lt hc).symm]
    · subst hc
      simp [classify]
    · simp only [classify, if_pos hc]
      refine ⟨by simp, ?_, ?_⟩
      · simp only [true_iff]
        exact ⟨x, rfl, fun he => absurd he (ne_of_gt hc).symm⟩
      · simp [ne_of_lt hc]

theorem mem_buildLevels {maxLevels : ℕ} {cur prev : List (ℚ × ℚ)}
    {side : BookSide} {lvl : DomLevel}
    (h : lvl ∈ buildLevels maxLevels cur prev side) :
    lvl.side = side ∧ lvl.prevSize = alGet prev lvl.price ∧
      lvl.change = classify lvl.size lvl.prevSize := by
  simp only [buildLevels, List.mem_map] at h
  obtain ⟨e, _, rfl⟩ := h
  exact ⟨rfl, rfl, rfl⟩

/-- **C6 (amended).** After a DOM update, a price is reported in the pulled
(removed) list of a side iff it was present in the previous book with a
size at least the dynamic large threshold (3 × the mean size of the current
book, 100 when empty) and is absent from the new book — smaller removed
levels are silently dropped; and every level of the ranked view carries the
previous size at its price, classified `added` iff absent before,
`modified` iff present with a different size, `unchanged` iff identical. -/
theorem dom_update_classification :
    ∀ (d : DomBuilder) (bidsIn asksIn : List (ℚ × ℚ)),
      (d.bids.map Prod.fst).Nodup →
      (d.asks.map Prod.fst).Nodup →
      (∀ p s : ℚ,
        ((⟨p, s, .bid, .removed⟩ : PulledLevel) ∈
            (d.update bidsIn asksIn).snapshot.pulledBids ↔
          (alGet d.bids p = some s ∧
            calcLargeThreshold (d.update bidsIn asksIn) ≤ s ∧
            alGet (d.update bidsIn asksIn).bids p = none))) ∧
      (∀ p s : ℚ,
        ((⟨p, s, .ask, .removed⟩ : PulledLevel) ∈
            (d.update bidsIn asksIn).snapshot.pulledAsks ↔
          (alGet d.asks p = some s ∧
            calcLargeThreshold (d.update bidsIn asksIn) ≤ s ∧
            alGet (d.update bidsIn asksIn).asks p = none))) ∧
      (∀ lvl ∈ (d.update bidsIn asksIn).snapshot.bids,
        lvl.prevSize = alGet d.bids lvl.price ∧
        (lvl.change = .added ↔ lvl.prevSize = none) ∧
        (lvl.change = .modified ↔ ∃ ps, lvl.prevSize = some ps ∧ ps ≠ lvl.size) ∧
        (lvl.change = .unchanged ↔ lvl.prevSize = some lvl.size)) ∧
      (∀ lvl ∈ (d.update bidsIn asksIn).snapshot.asks,
        lvl.prevSize = alGet d.asks lvl.price ∧
        (lvl.change = .added ↔ lvl.prevSize = none) ∧
        (lvl.change = .modified ↔ ∃ ps, lvl.prevSize = some ps ∧ ps ≠ lvl.size) ∧
        (lvl.change = .unchanged ↔ lvl.prevSize = some lvl.size)) := by
  intro d bidsIn asksIn hnb hna
  refine ⟨?_, ?_, ?_, ?_⟩
  · intro p s
    have hps : (d.update bidsIn asksIn).snapshot.pulledBids =
        pulledSide d.bids (d.update bidsIn asksIn).bids
          (calcLargeThreshold (d.update bidsIn asksIn)) .bid := by
      simp [DomBuilder.snapshot, DomBuilder.update]
    rw [hps, mem_pulledSide, alGet_eq_some_iff hnb]
  · intro p s
    have hps : (d.update bidsIn asksIn).snapshot.pulledAsks =
        pulledSide d.asks (d.update bidsIn asksIn).asks
          (calcLargeThreshold (d.update bidsIn asksIn)) .ask := by
      simp [DomBuilder.snapshot, DomBuilder.update]
    rw [hps, mem_pulledSide, alGet_eq_some_iff hna]
  · intro lvl hl
    have hbl : (d.update bidsIn asksIn).snapshot.bids =
        buildLevels d.maxLevels (d.update bidsIn asksIn).bids d.bids .bid := by
      simp [DomBuilder.snapshot, DomBuilder.update]
    rw [hbl] at hl
    obtain ⟨_, hprev, hch⟩ := mem_buildLevels hl
    obtain ⟨c1, c2, c3⟩ := classify_spec lvl.size lvl.prevSize
    exact ⟨hprev, hch ▸ c1, hch ▸ c2, hch ▸ c3⟩
  · intro lvl hl
    have hbl : (d.update bidsIn asksIn).snapshot.asks =
        buildLevels d.maxLevels (d.update bidsIn asksIn).asks d.asks .ask := by
      simp [DomBuilder.snapshot, DomBuilder.update]
    rw [hbl] at hl
    obtain ⟨_, hprev, hch⟩ := mem_buildLevels hl
    obtain ⟨c1, c2, c3⟩ := classify_spec lvl.size lvl.prevSize
    exact ⟨hprev, hch ▸ c1, hch ▸ c2, hch ▸ c3⟩

/-- Witness for `dom_update_classification`: a book holding one bid level
`(100, 50)` updated to `[(99, 50)]`; the iff instantiated at `p = 100`,
`s = 50`. -/
theorem dom_update_classification_witness :
    (((⟨50, [(100, 50)], [], [], []⟩ : DomBuilder).bids.map Prod.fst).Nodup) ∧
    (((⟨50, [(100, 50)], [], [], []⟩ : DomBuilder).asks.map Prod.fst).Nodup) ∧
    ((⟨100, 50, .bid, .removed⟩ : PulledLevel) ∈
        ((⟨50, [(100, 50)], [], [], []⟩ : DomBuilder).update
          [(99, 50)] []).snapshot.pulledBids ↔
      (alGet (⟨50, [(100, 50)], [], [], []⟩ : DomBuilder).bids 100 = some 50 ∧
        calcLargeThreshold ((⟨50, [(100, 50)], [], [], []⟩ : DomBuilder).update
          [(99, 50)] []) ≤ 50 ∧
        alGet ((⟨50, [(100, 50)], [], [], []⟩ : DomBuilder).update
          [(99, 50)] []).bids 100 = none)) := by
  refine ⟨by simp, by simp, ?_⟩
  exact (dom_update_classification ⟨50, [(100, 50)], [], [], []⟩ [(99, 50)] []
    (by simp) (by simp)).1 100 50

/-- **C6 (counterexample).** A previous book with one bid `(100, 50)` is
replaced by `[(99, 50)]`.  Price 100 was present with non-zero size and is
absent from the new input, yet `pulledBids` is empty — the source only
reports removed levels whose size reaches the dynamic large threshold
(here 3 × 50 = 150 > 50) — refuting the claim that every such price is
reported as removed. -/
theorem dom_removed_small_counterexample :
    (((⟨50, [(100, 50)], [], [], []⟩ : DomBuilder).update
        [(99, 50)] []).snapshot.pulledBids = []) ∧
    (alGet ((⟨50, [(100, 50)], [], [], []⟩ : DomBuilder).update
        [(99, 50)] []).prevBids 100 = some 50) ∧
    (alGet ((⟨50, [(100, 50)], [], [], []⟩ : DomBuilder).update
        [(99, 50)] []).bids 100 = none) := by
  refine ⟨?_, ?_, ?_⟩ <;>
    norm_num [DomBuilder.update, DomBuilder.snapshot, pulledSide, rebuildSide,
      calcLargeThreshold, alGet, alSet, List.find?]

/-!
## Ring-buffer lemmas (claim C8 machinery)
-/

theorem init_WF (α : Type) {capacity : ℕ} (h : 0 < capacity) :
    (RingBuffer.init α capacity).WF :=
  ⟨h, h, by simp [RingBuffer.init]⟩

theorem push_WF {α : Type} {r : RingBuffer α} (h : r.WF) (x : α) :
    (r.push x).WF := by
  obtain ⟨h1, h2, h3⟩ := h
  exact ⟨h1, Nat.mod_lt _ h1, by simpa [RingBuffer.push] using h3⟩

theorem pushAll_WF {α : Type} {r : RingBuffer α} (xs : List α) (h : r.WF) :
    (r.pushAll xs).WF := by
  induction xs generalizing r with
  | nil => exact h
  | cons hd tl ih => exact ih (push_WF h hd)

theorem pushAll_capacity {α : Type} (r : RingBuffer α) (xs : List α) :
    (r.pushAll xs).capacity = r.capacity := by
  induction xs generalizing r with
  | nil => rfl
  | cons hd tl ih => exact (ih (r.push hd)).trans rfl

theorem pushAll_head {α : Type} {r : RingBuffer α} (xs : List α) (h : r.WF) :
    (r.pushAll xs).head = (r.head + xs.length) % r.capacity := by
  induction xs generalizing r with
  | nil => exact (Nat.mod_eq_of_lt h.2.1).symm
  | cons hd tl ih =>
      have := ih (push_WF h hd)
      simp only [RingBuffer.pushAll, List.foldl_cons] at this ⊢
      rw [this]
      simp only [RingBuffer.push, List.length_cons]
      rw [Nat.mod_add_mod]
      ring_nf

theorem pushAll_getElem_untouched {α : Type} (xs : List α) (r : RingBuffer α)
    (hWF : r.WF) (p : ℕ)
    (h : ∀ i < xs.length, (r.head + i) % r.capacity ≠ p) :
    (r.pushAll xs).buffer[p]? = r.buffer[p]? := by
  induction xs generalizing r with
  | nil => rfl
  | cons hd tl ih =>
      have hstep : (r.push hd).buffer[p]? = r.buffer[p]? := by
        have hne : r.head ≠ p := by
          have := h 0 (by simp)
          simpa [Nat.mod_eq_of_lt hWF.2.1] using this
        simp only [RingBuffer.push]
        exact List.getElem?_set_ne hne
      have htail : ∀ i < tl.length, ((r.push hd).head + i) % (r.push hd).capacity ≠ p := by
        intro i hi
        have := h (i + 1) (by simpa using Nat.succ_lt_succ hi)
        simpa [RingBuffer.push, Nat.mod_add_mod, Nat.add_assoc, Nat.add_comm 1 i] using this
      calc (r.pushAll (hd :: tl)).buffer[p]?
      _ = ((r.push hd).pushAll tl).buffer[p]? := rfl
      _ = (r.push hd).buffer[p]? := ih (r.push hd) (push_WF hWF hd) htail
      _ = r.buffer[p]? := hstep

theorem head_shift_ne {cap headPos k : ℕ} (_hcap : 0 < cap) (hh : headPos < cap)
    (hk : 0 < k) (hk2 : k < cap) : (headPos + k) % cap ≠ headPos := by
  intro he
  have hmod : (headPos + k) % cap = headPos % cap := by
    rw [he, Nat.mod_eq_of_lt hh]
  have hdvd : cap ∣ (headPos + k - headPos) :=
    (Nat.modEq_iff_dvd' (Nat.le_add_right _ _)).mp (Nat.ModEq.symm hmod)
  rw [Nat.add_sub_cancel_left] at hdvd
  exact absurd (Nat.le_of_dvd hk hdvd) (not_le_of_lt hk2)

theorem drainAux_pushAll {α : Type} (xs : List α) (r : RingBuffer α)
    (hWF : r.WF) (hlen : xs.length < r.capacity) :
    ∀ fuel, xs.length < fuel →
      drainAux (r.pushAll xs).buffer r.capacity (r.pushAll xs).head fuel r.head = xs := by
  induction xs generalizing r with
  | nil =>
      intro fuel hfuel
      rcases fuel with _ | f
      · exact absurd hfuel (by simp)
      · simp [drainAux, RingBuffer.pushAll]
  | cons hd tl ih =>
      intro fuel hfuel
      rcases fuel with _ | f
      · exact absurd hfuel (by simp)
      have hne : (r.pushAll (hd :: tl)).head ≠ r.head := by
        rw [pushAll_head _ hWF]
        exact head_shift_ne hWF.1 hWF.2.1 (by simp) (by simpa using hlen)
      have hget : (r.pushAll (hd :: tl)).buffer[r.head]? = some (some hd) := by
        have huntouched : ((r.push hd).pushAll tl).buffer[r.head]? =
            (r.push hd).buffer[r.head]? := by
          apply pushAll_getElem_untouched tl (r.push hd) (push_WF hWF hd)
          intro i hi
          simp only [RingBuffer.push, Nat.mod_add_mod]
          rw [Nat.add_assoc]
          apply head_shift_ne hWF.1 hWF.2.1 (by omega)
          have : tl.length + 1 < r.capacity := by simpa using hlen
          omega
        have hset : (r.push hd).buffer[r.head]? = some (some hd) := by
          simp only [RingBuffer.push]
          exact List.getElem?_set_self (hWF.2.2 ▸ hWF.2.1)
        exact huntouched.trans hset
      have hstep : drainAux (r.pushAll (hd :: tl)).buffer r.capacity
          (r.pushAll (hd :: tl)).head (f + 1) r.head =
          hd :: drainAux (r.pushAll (hd :: tl)).buffer r.capacity
            (r.pushAll (hd :: tl)).head f ((r.head + 1) % r.capacity) := by
        rw [drainAux, if_neg (Ne.symm hne), hget]
        rfl
      rw [hstep]
      have htl : drainAux ((r.push hd).pushAll tl).buffer (r.push hd).capacity
          ((r.push hd).pushAll tl).head f (r.push hd).head = tl := by
        apply ih (r.push hd) (push_WF hWF hd)
        · simpa [RingBuffer.push] using Nat.lt_of_succ_lt (by simpa using hlen)
        · exact Nat.lt_of_succ_lt_succ (by simpa using hfuel)
      simpa [RingBuffer.push, RingBuffer.pushAll] using htl

/-- **C8 (amended).** For every well-formed ring buffer, a cursor captured
as the current head, and a subsequent sequence of strictly fewer than
`capacity` appends, `drainSince(cursor)` returns exactly the appended items
in append order.  (At `capacity` or more appends the cursor's items are
overwritten and `drainSince` no longer returns them all — see the
counterexample.) -/
theorem drainSince_returns_appended :
    ∀ (r : RingBuffer ℕ) (xs : List ℕ),
      r.WF → xs.length < r.capacity →
      (r.pushAll xs).drainSince r.head = xs := by
  intro r xs hWF hlen
  rcases xs with _ | ⟨hd, tl⟩
  · have hhead : (r.pushAll []).head = r.head := rfl
    simp [RingBuffer.drainSince, hhead]
  · have hne : r.head ≠ (r.pushAll (hd :: tl)).head := by
      rw [pushAll_head _ hWF]
      exact (head_shift_ne hWF.1 hWF.2.1 (by simp) (by simpa using hlen)).symm
    rw [RingBuffer.drainSince, if_neg hne, pushAll_capacity]
    exact drainAux_pushAll (hd :: tl) r hWF hlen r.capacity (by simpa using hlen)

/-- Witness for `drainSince_returns_appended`: capacity 3, two appends. -/
theorem drainSince_returns_appended_witness :
    (RingBuffer.init ℕ 3).WF ∧ ([10, 20] : List ℕ).length < 3 ∧
    ((RingBuffer.init ℕ 3).pushAll [10, 20]).drainSince
      (RingBuffer.init ℕ 3).head = [10, 20] :=
  ⟨init_WF ℕ (by decide), by decide,
    drainSince_returns_appended (RingBuffer.init ℕ 3) [10, 20]
      (init_WF ℕ (by decide)) (by decide)⟩

/-- **C8 (counterexample).** Capacity 2, cursor captured at head 0, then
exactly two appends (the capacity): the head wraps back to the cursor and
`drainSince` returns `[]` instead of the two appended items — refuting the
claim for the case where the number of appends reaches the capacity. -/
theorem drainSince_wraparound_counterexample :
    ((RingBuffer.init ℕ 2).pushAll [10, 20]).drainSince
      (RingBuffer.init ℕ 2).head = [] ∧
    ((RingBuffer.init ℕ 2).pushAll [10, 20]).drainSince
      (RingBuffer.init ℕ 2).head ≠ [10, 20] := by
  refine ⟨by decide, by decide⟩

/-!
## Alert-evaluator lemmas (claim C9 machinery)
-/

theorem canAlert_fst (ev : AlertEvaluator) (τ : AlertType) (now : ℕ) :
    (ev.canAlert τ now).1 = fireCond (ev.recentAlerts τ) now ev.throttleMs := by
  rcases hl : ev.recentAlerts τ with _ | last
  · simp [AlertEvaluator.canAlert, fireCond, hl]
  · simp only [AlertEvaluator.canAlert, fireCond, hl]
    split_ifs with h
    · simp only [Bool.true_eq, Bool.or_eq_true, decide_eq_true_eq]
      exact h
    · simp only [Bool.false_eq, Bool.or_eq_false_iff, decide_eq_false_iff_not]
      push_neg at h
      exact ⟨h.1, not_lt.mpr h.2⟩

theorem canAlert_recentAlerts (ev : AlertEvaluator) (τ : AlertType) (now : ℕ)
    (σ : AlertType) :
    ((ev.canAlert τ now).2).recentAlerts σ =
      if fireCond (ev.recentAlerts τ) now ev.throttleMs = true ∧ σ = τ then some now
      else ev.recentAlerts σ := by
  rcases hl : ev.recentAlerts τ with _ | last
  · simp only [AlertEvaluator.canAlert, fireCond, hl]
    by_cases hσ : σ = τ <;> simp [hσ, hl]
  · simp only [AlertEvaluator.canAlert, fireCond, hl]
    split_ifs with h h2 h2
    · dsimp only
      rw [if_pos h2.2]
    · by_cases hσ : σ = τ
      · exfalso
        exact h2 ⟨by simpa [Bool.or_eq_true, decide_eq_true_eq] using h, hσ⟩
      · dsimp only
        rw [if_neg hσ]
    · exfalso
      rcases h2 with ⟨hfire, _⟩
      simp only [Bool.or_eq_true, decide_eq_true_eq] at hfire
      exact h hfire
    · rfl

theorem canAlert_config (ev : AlertEvaluator) (τ : AlertType) (now : ℕ) :
    ((ev.canAlert τ now).2).config = ev.config := by
  rcases hl : ev.recentAlerts τ with _ | last <;>
    simp only [AlertEvaluator.canAlert, hl] <;> split_ifs <;> rfl

theorem canAlert_throttleMs (ev : AlertEvaluator) (τ : AlertType) (now : ℕ) :
    ((ev.canAlert τ now).2).throttleMs = ev.throttleMs := by
  rcases hl : ev.recentAlerts τ with _ | last <;>
    simp only [AlertEvaluator.canAlert, hl] <;> split_ifs <;> rfl

theorem alertStep_config (ctx : AlertCtx) (now : ℕ)
    (acc : List AlertType × AlertEvaluator) (τ : AlertType) :
    (alertStep ctx now acc τ).2.config = acc.2.config := by
  unfold alertStep
  split_ifs
  · exact canAlert_config _ _ _
  · rfl

theorem alertStep_throttleMs (ctx : AlertCtx) (now : ℕ)
    (acc : List AlertType × AlertEvaluator) (τ : AlertType) :
    (alertStep ctx now acc τ).2.throttleMs = acc.2.throttleMs := by
  unfold alertStep
  split_ifs
  · exact canAlert_throttleMs _ _ _
  · rfl

theorem alertStep_recentAlerts_ne (ctx : AlertCtx) (now : ℕ)
    (acc : List AlertType × AlertEvaluator) {σ τ : AlertType} (h : σ ≠ τ) :
    (alertStep ctx now acc τ).2.recentAlerts σ = acc.2.recentAlerts σ := by
  unfold alertStep
  split_ifs
  · rw [canAlert_recentAlerts, if_neg]
    rintro ⟨_, rfl⟩
    exact h rfl
  · rfl

theorem alertStep_mem_ne (ctx : AlertCtx) (now : ℕ)
    (acc : List AlertType × AlertEvaluator) {σ τ : AlertType} (h : σ ≠ τ) :
    (σ ∈ (alertStep ctx now acc τ).1 ↔ σ ∈ acc.1) := by
  unfold alertStep
  split_ifs
  · simp only [List.mem_append]
    constructor
    · rintro (hm | hm)
      · exact hm
      · exfalso
        split_ifs at hm <;> simp_all
    · exact Or.inl
  · rfl

theorem alertStep_notin (ctx : AlertCtx) (now : ℕ)
    (acc : List AlertType × AlertEvaluator) {σ τ : AlertType} (h : σ ≠ τ)
    (h2 : σ ∉ acc.1) : σ ∉ (alertStep ctx now acc τ).1 := by
  rw [alertStep_mem_ne ctx now acc h]
  exact h2

theorem alertStep_mem_self (ctx : AlertCtx) (now : ℕ)
    (acc : List AlertType × AlertEvaluator) (σ : AlertType) (h : σ ∉ acc.1) :
    (σ ∈ (alertStep ctx now acc σ).1 ↔
      qualifies acc.2.config ctx σ = true ∧
        fireCond (acc.2.recentAlerts σ) now acc.2.throttleMs = true) := by
  simp only [alertStep]
  by_cases hq : qualifies acc.2.config ctx σ = true
  · rw [if_pos hq]
    by_cases hf : fireCond (acc.2.recentAlerts σ) now acc.2.throttleMs = true
    · rw [canAlert_fst, if_pos hf]
      simp only [List.mem_append, List.mem_singleton]
      constructor
      · rintro (hm | _)
        · exact absurd hm h
        · exact ⟨hq, hf⟩
      · intro _
        exact Or.inr trivial
    · rw [canAlert_fst, if_neg hf]
      simp only [List.append_nil]
      constructor
      · intro hm
        exact absurd hm h
      · rintro ⟨_, hf2⟩
        exact absurd hf2 hf
  · rw [if_neg hq]
    constructor
    · intro hm
      exact absurd hm h
    · rintro ⟨hq2, _⟩
      exact absurd hq2 hq

theorem alertStep_recentAlerts_self (ctx : AlertCtx) (now : ℕ)
    (acc : List AlertType × AlertEvaluator) (σ : AlertType) :
    (alertStep ctx now acc σ).2.recentAlerts σ =
      if qualifies acc.2.config ctx σ = true ∧
          fireCond (acc.2.recentAlerts σ) now acc.2.throttleMs = true
      then some now else acc.2.recentAlerts σ := by
  simp only [alertStep]
  by_cases hq : qualifies acc.2.config ctx σ = true
  · rw [if_pos hq]
    by_cases hf : fireCond (acc.2.recentAlerts σ) now acc.2.throttleMs = true
    · rw [canAlert_recentAlerts, if_pos ⟨hf, rfl⟩, if_pos ⟨hq, hf⟩]
    · rw [canAlert_recentAlerts, if_neg, if_neg]
      · rintro ⟨_, hf2⟩
        exact absurd hf2 hf
      · rintro ⟨hf2, _⟩
        exact absurd hf2 hf
  · rw [if_neg hq, if_neg]
    rintro ⟨hq2, _⟩
    exact absurd hq2 hq

/-- Characterization of one `evaluate` call for one alert type: membership
in the returned alerts iff the context qualifies and the throttle allows,
the throttle stamp updated to `now` exactly when both hold, and config and
window untouched. -/
theorem evaluate_spec (ev : AlertEvaluator) (ctx : AlertCtx) (now : ℕ)
    (τ : AlertType) :
    (τ ∈ (ev.evaluate ctx now).1 ↔
      qualifies ev.config ctx τ = true ∧
        fireCond (ev.recentAlerts τ) now ev.throttleMs = true) ∧
    ((ev.evaluate ctx now).2.recentAlerts τ =
      if qualifies ev.config ctx τ = true ∧
          fireCond (ev.recentAlerts τ) now ev.throttleMs = true
      then some now else ev.recentAlerts τ) ∧
    (ev.evaluate ctx now).2.config = ev.config ∧
    (ev.evaluate ctx now).2.throttleMs = ev.throttleMs := by
  have hcfg : ∀ acc τ', (alertStep ctx now acc τ').2.config = acc.2.config :=
    fun acc τ' => alertStep_config ctx now acc τ'
  have hthr : ∀ acc τ', (alertStep ctx now acc τ').2.throttleMs = acc.2.throttleMs :=
    fun acc τ' => alertStep_throttleMs ctx now acc τ'
  cases τ <;>
    simp only [AlertEvaluator.evaluate, List.foldl_cons, List.foldl_nil] <;>
    refine ⟨?_, ?_, by simp [hcfg], by simp [hthr]⟩
  case largePrint.refine_1 =>
    rw [alertStep_mem_ne ctx now _ (by simp),
      alertStep_mem_ne ctx now _ (by simp),
      alertStep_mem_ne ctx now _ (by simp),
      alertStep_mem_self ctx now _ _ (by simp)]
  case largePrint.refine_2 =>
    rw [alertStep_recentAlerts_ne ctx now _ (by simp),
      alertStep_recentAlerts_ne ctx now _ (by simp),
      alertStep_recentAlerts_ne ctx now _ (by simp),
      alertStep_recentAlerts_self ctx now _ _]
  case deltaThreshold.refine_1 =>
    rw [alertStep_mem_ne ctx now _ (by simp),
      alertStep_mem_ne ctx now _ (by simp),
      alertStep_mem_self ctx now _ _
        (alertStep_notin ctx now _ (by simp) (by simp)),
      hcfg, alertStep_recentAlerts_ne ctx now _ (by simp), hthr]
  case deltaThreshold.refine_2 =>
    rw [alertStep_recentAlerts_ne ctx now _ (by simp),
      alertStep_recentAlerts_ne ctx now _ (by simp),
      alertStep_recentAlerts_self ctx now _ _,
      hcfg, alertStep_recentAlerts_ne ctx now _ (by simp), hthr]
  case tapeSpeed.refine_1 =>
    rw [alertStep_mem_ne ctx now _ (by simp),
      alertStep_mem_self ctx now _ _
        (alertStep_notin ctx now _ (by simp)
          (alertStep_notin ctx now _ (by simp) (by simp))),
      hcfg, hcfg,
      alertStep_recentAlerts_ne ctx now _ (by simp),
      alertStep_recentAlerts_ne ctx now _ (by simp),
      hthr, hthr]
  case tapeSpeed.refine_2 =>
    rw [alertStep_recentAlerts_ne ctx now _ (by simp),
      alertStep_recentAlerts_self ctx now _ _,
      hcfg, hcfg,
      alertStep_recentAlerts_ne ctx now _ (by simp),
      alertStep_recentAlerts_ne ctx now _ (by simp),
      hthr, hthr]
  case domImbalance.refine_1 =>
    rw [alertStep_mem_self ctx now _ _
        (alertStep_notin ctx now _ (by simp)
          (alertStep_notin ctx now _ (by simp)
            (alertStep_notin ctx now _ (by simp) (by simp)))),
      hcfg, hcfg, hcfg,
      alertStep_recentAlerts_ne ctx now _ (by simp),
      alertStep_recentAlerts_ne ctx now _ (by simp),
      alertStep_recentAlerts_ne ctx now _ (by simp),
      hthr, hthr, hthr]
  case domImbalance.refine_2 =>
    rw [alertStep_recentAlerts_self ctx now _ _,
      hcfg, hcfg, hcfg,
      alertStep_recentAlerts_ne ctx now _ (by simp),
      alertStep_recentAlerts_ne ctx now _ (by simp),
      alertStep_recentAlerts_ne ctx now _ (by simp),
      hthr, hthr, hthr]

/-- **C9.** Throttling is keyed by alert type: once an evaluation at time
`t1 > 0` fires an alert of type `τ`, a further qualifying evaluation within
`throttleMs` of `t1` produces no alert of that type and leaves the `τ`
throttle stamp unchanged (silently dropped, not queued), while a qualifying
evaluation more than `throttleMs` after `t1` fires a new `τ` alert. -/
theorem alert_throttle_per_type :
    ∀ (ev : AlertEvaluator) (ctx1 ctx2 ctx3 : AlertCtx) (τ : AlertType)
      (t1 t2 t3 : ℕ),
      0 < t1 → t1 ≤ t2 →
      qualifies ev.config ctx1 τ = true →
      qualifies ev.config ctx2 τ = true →
      qualifies ev.config ctx3 τ = true →
      τ ∈ (ev.evaluate ctx1 t1).1 →
      t2 - t1 ≤ ev.throttleMs →
      t3 - t1 > ev.throttleMs →
      τ ∉ ((ev.evaluate ctx1 t1).2.evaluate ctx2 t2).1 ∧
      ((ev.evaluate ctx1 t1).2.evaluate ctx2 t2).2.recentAlerts τ = some t1 ∧
      τ ∈ (((ev.evaluate ctx1 t1).2.evaluate ctx2 t2).2.evaluate ctx3 t3).1 := by
  intro ev ctx1 ctx2 ctx3 τ t1 t2 t3 ht1 ht12 hq1 hq2 hq3 hfired hwin hafter
  obtain ⟨hm1, hs1, hc1, hth1⟩ := evaluate_spec ev ctx1 t1 τ
  obtain ⟨hq1', hf1⟩ := hm1.mp hfired
  have hstamp1 : (ev.evaluate ctx1 t1).2.recentAlerts τ = some t1 := by
    rw [hs1, if_pos ⟨hq1', hf1⟩]
  obtain ⟨hm2, hs2, hc2, hth2⟩ := evaluate_spec (ev.evaluate ctx1 t1).2 ctx2 t2 τ
  have hfire2 : fireCond ((ev.evaluate ctx1 t1).2.recentAlerts τ) t2
      (ev.evaluate ctx1 t1).2.throttleMs = false := by
    rw [hstamp1, hth1]
    simp only [fireCond, Bool.or_eq_false_iff, decide_eq_false_iff_not]
    omega
  have hnot2 : τ ∉ ((ev.evaluate ctx1 t1).2.evaluate ctx2 t2).1 := by
    rw [hm2]
    rintro ⟨_, hf2⟩
    rw [hfire2] at hf2
    exact absurd hf2 (by simp)
  have hstamp2 : ((ev.evaluate ctx1 t1).2.evaluate ctx2 t2).2.recentAlerts τ =
      some t1 := by
    rw [hs2, if_neg, hstamp1]
    rintro ⟨_, hf2⟩
    rw [hfire2] at hf2
    exact absurd hf2 (by simp)
  refine ⟨hnot2, hstamp2, ?_⟩
  obtain ⟨hm3, _, _, _⟩ :=
    evaluate_spec ((ev.evaluate ctx1 t1).2.evaluate ctx2 t2).2 ctx3 t3 τ
  rw [hm3]
  refine ⟨by rw [hc2, hc1]; exact hq3, ?_⟩
  rw [hstamp2, hth2, hth1]
  simp only [fireCond, Bool.or_eq_true, decide_eq_true_eq]
  right
  omega

/-- Witness for `alert_throttle_per_type`: a fresh evaluator, a context
whose metrics mark a large print, `t1 = 10`, `t2 = 20` (within the 3000 ms
window) and `t3 = 5000` (outside it). -/
theorem alert_throttle_per_type_witness :
    (0 < 10) ∧ (10 ≤ 20) ∧
    (qualifies AlertEvaluator.init.config
      ⟨⟨0, 0, 0, Side.buy⟩, none, some ⟨0, true, none⟩, none⟩ .largePrint = true) ∧
    ((.largePrint : AlertType) ∈ (AlertEvaluator.init.evaluate
      ⟨⟨0, 0, 0, Side.buy⟩, none, some ⟨0, true, none⟩, none⟩ 10).1) ∧
    (20 - 10 ≤ AlertEvaluator.init.throttleMs) ∧
    (5000 - 10 > AlertEvaluator.init.throttleMs) ∧
    ((.largePrint : AlertType) ∉ ((AlertEvaluator.init.evaluate
        ⟨⟨0, 0, 0, Side.buy⟩, none, some ⟨0, true, none⟩, none⟩ 10).2.evaluate
        ⟨⟨0, 0, 0, Side.buy⟩, none, some ⟨0, true, none⟩, none⟩ 20).1 ∧
      ((AlertEvaluator.init.evaluate
        ⟨⟨0, 0, 0, Side.buy⟩, none, some ⟨0, true, none⟩, none⟩ 10).2.evaluate
        ⟨⟨0, 0, 0, Side.buy⟩, none, some ⟨0, true, none⟩, none⟩ 20).2.recentAlerts
        .largePrint = some 10 ∧
      (.largePrint : AlertType) ∈ (((AlertEvaluator.init.evaluate
        ⟨⟨0, 0, 0, Side.buy⟩, none, some ⟨0, true, none⟩, none⟩ 10).2.evaluate
        ⟨⟨0, 0, 0, Side.buy⟩, none, some ⟨0, true, none⟩, none⟩ 20).2.evaluate
        ⟨⟨0, 0, 0, Side.buy⟩, none, some ⟨0, true, none⟩, none⟩ 5000).1) := by
  have hq : qualifies AlertEvaluator.init.config
      ⟨⟨0, 0, 0, Side.buy⟩, none, some ⟨0, true, none⟩, none⟩ .largePrint = true := rfl
  have hfired : (.largePrint : AlertType) ∈ (AlertEvaluator.init.evaluate
      ⟨⟨0, 0, 0, Side.buy⟩, none, some ⟨0, true, none⟩, none⟩ 10).1 :=
    (evaluate_spec AlertEvaluator.init
      ⟨⟨0, 0, 0, Side.buy⟩, none, some ⟨0, true, none⟩, none⟩ 10 .largePrint).1.mpr
      ⟨hq, rfl⟩
  exact ⟨by decide, by decide, hq, hfired, by decide, by decide,
    alert_throttle_per_type AlertEvaluator.init
      ⟨⟨0, 0, 0, Side.buy⟩, none, some ⟨0, true, none⟩, none⟩
      ⟨⟨0, 0, 0, Side.buy⟩, none, some ⟨0, true, none⟩, none⟩
      ⟨⟨0, 0, 0, Side.buy⟩, none, some ⟨0, true, none⟩, none⟩
      .largePrint 10 20 5000 (by decide) (by decide) hq hq hq hfired
      (by decide) (by decide)⟩

end OrderFlow
